import Mathlib

/-!
Formal model of the devlog-backend request-admission and engagement layer.

The Go sources are embedded shallowly:
  * `middleware/rate_limit.go` — `checkRateLimit`, `cleanupRateLimit`,
    `PublicRateLimitMiddleware`, `getEnvInt`;
  * `middleware/auth.go` — `AdminAuthMiddleware`;
  * `middleware/input_sanitizer.go` — `containsSuspiciousPatterns`,
    `InputSanitizationMiddleware`;
  * `handlers/post.go` — `LikePost`, `GetPost`, `CreatePost`, `generateSlug`.

Go `time.Time` values are modelled as `Int` (nanoseconds since epoch);
`t.After(u)` is `u < t`.  Go strings are modelled as `String` where only
equality matters and as `List Char` where character-level processing
(lowercasing, splitting, substring search) matters; this is faithful for
the ASCII data all claims are about.  The in-memory Go map
`map[string][]time.Time` is modelled as an association list with unique
keys (`ReqMap`); map assignment replaces the entry for the key.
-/

/-- Store of a rate limiter: per client key, the recorded request
timestamps.  Models the Go `RateLimiter.requests` map. -/
abbrev ReqMap := List (String × List Int)

/-- Map read `limiter.requests[clientIP]`: a missing key yields the empty
slice, as in Go. -/
def lookupReqs (m : ReqMap) (ip : String) : List Int :=
  (m.lookup ip).getD []

/-- Map assignment `limiter.requests[clientIP] = l`: the entry for `ip` is
replaced (or created). -/
def setReqs (m : ReqMap) (ip : String) (l : List Int) : ReqMap :=
  (ip, l) :: m.filter (fun p => !(p.1 == ip))

/-- Translation of `cleanupRateLimit` (rate_limit.go lines 134-149): every
key's timestamps are filtered to those strictly after `cutoff`
(`reqTime.After(cutoff)`), and keys whose list becomes empty are deleted. -/
def cleanupRateLimit (m : ReqMap) (cutoff : Int) : ReqMap :=
  (m.map (fun p => (p.1, p.2.filter (fun t => cutoff < t)))).filter
    (fun p => !p.2.isEmpty)

/-- Translation of `checkRateLimit` (rate_limit.go lines 98-131).
Returns the boolean admission decision together with the updated store.
`maxRequests` is taken as a `Nat`; a negative Go `int` limit behaves
exactly like `0` (the comparison `len >= maxRequests` is then always
true), so `Nat` loses nothing for the claims, which quantify over
`N >= 0`. -/
def checkRateLimit (m : ReqMap) (clientIP : String) (maxRequests : Nat)
    (window now : Int) : Bool × ReqMap :=
  let windowStart := now - window
  let requests := lookupReqs m clientIP
  let validRequests := requests.filter (fun t => windowStart < t)
  if maxRequests ≤ validRequests.length then
    (false, m)
  else
    let m1 := setReqs m clientIP (validRequests ++ [now])
    (true, if 1000 < m1.length then cleanupRateLimit m1 windowStart else m1)

/-- A sequence of `checkRateLimit` calls threaded through the store,
returning the final store and the list of admission decisions. -/
def runCalls (maxRequests : Nat) (window : Int) :
    ReqMap → List (String × Int) → ReqMap × List Bool
  | m, [] => (m, [])
  | m, (ip, now) :: rest =>
    let step := checkRateLimit m ip maxRequests window now
    let tail := runCalls maxRequests window step.2 rest
    (tail.1, step.1 :: tail.2)

/-- Definition following the specification's words (the refinement target
for claim C1, not translated from the code): a call at time `now` is
admitted if and only if fewer than `N` previously admitted calls have
timestamps inside the trailing window, and exactly the admitted calls are
recorded.  `admitted` carries every previously admitted timestamp,
without any purging. -/
def specAdmit (N : Nat) (W : Int) : List Int → List Int → List Bool
  | _, [] => []
  | admitted, now :: rest =>
    let ok := (admitted.filter (fun t => now - W < t)).length < N
    ok :: specAdmit N W (if ok then admitted ++ [now] else admitted) rest

/-- Results of the calls made for key `k`, in order, extracted from a
mixed-key trace. -/
def selectKey (k : String) : List (String × Int) → List Bool → List Bool
  | c :: cs, b :: bs =>
    if c.1 == k then b :: selectKey k cs bs else selectKey k cs bs
  | _, _ => []

/-- Two timestamp lists agree on every trailing-window filter with cutoff
at least `c0`.  This is the simulation relation used for the sliding
window proofs: lazily purged stores are window-filter equivalent to
unpurged ones. -/
def FilterAgree (l1 l2 : List Int) (c0 : Int) : Prop :=
  ∀ c : Int, c0 ≤ c →
    l1.filter (fun t => decide (c < t)) = l2.filter (fun t => decide (c < t))

/-- Keys currently present in the store. -/
def keysOf (m : ReqMap) : List String :=
  m.map Prod.fst

/-- Outcome of the admin authentication middleware. -/
inductive AuthOutcome
  | misconfigured
  | missingHeader
  | invalidKey
  | allowed
deriving DecidableEq

/-- Go `strings.Split(s, ",")`: splits at every comma; the empty string
splits into one empty part, matching Go. -/
def splitComma : List Char → List (List Char)
  | [] => [[]]
  | c :: rest =>
    if c = ',' then [] :: splitComma rest
    else
      match splitComma rest with
      | s :: ss => (c :: s) :: ss
      | [] => [[c]]

/-- Whitespace recognised by Go `strings.TrimSpace`, restricted to the
ASCII range (space, tab, newline, vertical tab, form feed, carriage
return); configured API keys are ASCII. -/
def isGoSpace (c : Char) : Bool :=
  c = ' ' || c = '\t' || c = '\n' || c = '\x0b' || c = '\x0c' || c = '\r'

/-- Go `strings.TrimSpace`: drops whitespace from both ends. -/
def trimSpace (s : List Char) : List Char :=
  (((s.dropWhile isGoSpace).reverse).dropWhile isGoSpace).reverse

/-- `subtle.ConstantTimeCompare(x, y) == 1` holds exactly when the two
byte strings are equal; only this equality semantics is observable. -/
def constantTimeCompare (x y : List Char) : Bool :=
  x == y

/-- Translation of `AdminAuthMiddleware` (auth.go lines 57-103): empty
configured-key string means misconfiguration; empty provided header is a
missing credential; otherwise the provided key is compared against every
trimmed nonempty part of the comma-separated configured string. -/
def AdminAuthMiddleware (adminAPIKeys providedKey : List Char) : AuthOutcome :=
  if adminAPIKeys = [] then .misconfigured
  else if providedKey = [] then .missingHeader
  else if (splitComma adminAPIKeys).any
      (fun k => !(trimSpace k == [])
        && constantTimeCompare providedKey (trimSpace k)) then
    .allowed
  else .invalidKey

/-- HTTP status produced for each non-allowed outcome.  The 500 for
`misconfigured` is `http.StatusInternalServerError` in the source.
Modelled from the spec: `apierrors.RespondMissingAuthorization` and
`apierrors.RespondInvalidAPIKey` are called but not among the sources
under review; spec section 4.3 fixes both responses to 401 Unauthorized. -/
def authErrorStatus : AuthOutcome → Option Nat
  | .misconfigured => some 500
  | .missingHeader => some 401
  | .invalidKey => some 401
  | .allowed => none

/-- Translation of `getEnvInt` (rate_limit.go lines 29-36): an environment
variable that is set and parses as an integer is `some v`, anything else
falls back. -/
def getEnvInt (value : Option Int) (fallback : Int) : Int :=
  value.getD fallback

/-- Translation of the limit selection in `PublicRateLimitMiddleware`
(rate_limit.go lines 58-95): `method` is `c.Request.Method` and `path` is
`c.Request.URL.Path`, the raw URL path of the request (not the gin route
pattern).  The window is one minute in every branch. -/
def PublicRateLimitMiddleware (envGet envSocial envDefault : Option Int)
    (method path : String) : Int :=
  if method == "GET" then getEnvInt envGet 120
  else if path == "/api/v1/posts/:id/like" || path == "/api/v1/posts/:id/view" then
    getEnvInt envSocial 60
  else getEnvInt envDefault 100

/-- Does any suffix of the list satisfy `p`?  Helper expressing substring
search (`strings.Contains`) and anchored regular-expression search. -/
def anySuffix (p : List Char → Bool) : List Char → Bool
  | [] => p []
  | c :: rest => p (c :: rest) || anySuffix p rest

/-- Go `strings.Contains(s, pat)`. -/
def containsSub (pat s : List Char) : Bool :=
  anySuffix (fun t => pat.isPrefixOf t) s

/-- The blacklist of `containsSuspiciousPatterns`
(input_sanitizer.go lines 48-67). -/
def suspiciousPatterns : List (List Char) :=
  ["$where", "$ne", "$gt", "$lt", "$regex", "$or", "$and", "$nor", "$not",
   "$exists", "$type", "$mod", "$text", "$search", "javascript:", "<script",
   "eval(", "function("].map String.toList

/-- The class `\s` of Go regular expressions: tab, newline, form feed,
carriage return, space. -/
def goSpace (c : Char) : Bool :=
  c = '\t' || c = '\n' || c = '\x0c' || c = '\r' || c = ' '

/-- Does `t` start with the keyword `kw` followed by optional whitespace
and an opening parenthesis?  Models the regex alternatives
`function\s*\(` and `eval\s*\(`. -/
def kwParenAt (kw t : List Char) : Bool :=
  kw.isPrefixOf t && (((t.drop kw.length).dropWhile goSpace).head? == some '(')

/-- The regular expression
`(?i)(function\s*\(|eval\s*\(|this\.|document\.|window\.)` of
input_sanitizer.go line 76, evaluated on the lowercased input: for ASCII
input, case-insensitive matching coincides with matching the lowercase
patterns against the lowercased string. -/
def jsRegexMatch (s : List Char) : Bool :=
  anySuffix (kwParenAt ("function".toList)) s
  || anySuffix (kwParenAt ("eval".toList)) s
  || containsSub ("this.".toList) s
  || containsSub ("document.".toList) s
  || containsSub ("window.".toList) s

/-- Translation of `containsSuspiciousPatterns`
(input_sanitizer.go lines 43-82): the input is lowercased
(`strings.ToLower`), each blacklist token is searched as a substring, and
the JavaScript-construct regex is applied. -/
def containsSuspiciousPatterns (input : List Char) : Bool :=
  let lower := input.map Char.toLower
  suspiciousPatterns.any (fun pat => containsSub pat lower) || jsRegexMatch lower

/-- Translation of `InputSanitizationMiddleware`
(input_sanitizer.go lines 14-40): the request is rejected with 400 (the
returned `true`) when any query or path parameter value is flagged. -/
def InputSanitizationMiddleware (queryValues pathValues : List (List Char)) : Bool :=
  queryValues.any containsSuspiciousPatterns
  || pathValues.any containsSuspiciousPatterns

/-- Blog post record (`models.Post`): the fields the claims involve; the
`id` is the canonical (lowercase) 24-hex-character ObjectID string. -/
structure Post where
  id : List Char
  title : List Char
  slug : List Char
  likes : Int
  views : Int
  published : Bool
deriving DecidableEq

/-- Like record (`models.PostLike`): post id plus client identity. -/
structure PostLike where
  postId : List Char
  ip : List Char
deriving DecidableEq

/-- Hexadecimal digit as accepted by Go `encoding/hex` (both cases). -/
def isHexDigit (c : Char) : Bool :=
  ('0' ≤ c && c ≤ '9') || ('a' ≤ c && c ≤ 'f') || ('A' ≤ c && c ≤ 'F')

/-- Go `primitive.ObjectIDFromHex`: succeeds iff the string is 24
hexadecimal characters.  Decoding forgets the letter case of the hex
digits, so the decoded id is represented by the lowercased hex string. -/
def ObjectIDFromHex (s : List Char) : Option (List Char) :=
  if s.length = 24 ∧ s.all isHexDigit then some (s.map Char.toLower) else none

/-- Translation of `GetPost` (post.go lines 129-160): the identifier is
parsed as an ObjectID first and looked up by `_id`; only on parse failure
is it looked up by `slug`.  `find?` models `FindOne` over the posts
collection. -/
def GetPost (store : List Post) (identifier : List Char) : Option Post :=
  match ObjectIDFromHex identifier with
  | some oid => store.find? (fun p => p.id == oid)
  | none => store.find? (fun p => p.slug == identifier)

/-- Translation of `LikePost` (post.go lines 264-330), for an already
parsed post id (an unparsable id is rejected with 400 earlier): missing
post responds 404; an existing like record for (post, identity) responds
409 with nothing changed; otherwise one like record is inserted and the
post's counter is incremented by 1 (`$inc`), responding 200.
Returns (status, posts, like records). -/
def LikePost (posts : List Post) (records : List PostLike)
    (pid ip : List Char) : Nat × List Post × List PostLike :=
  match posts.find? (fun p => p.id == pid) with
  | none => (404, posts, records)
  | some _ =>
    if records.any (fun r => r.postId == pid && r.ip == ip) then
      (409, posts, records)
    else
      (200,
       posts.map (fun q => if q.id == pid then { q with likes := q.likes + 1 } else q),
       records ++ [⟨pid, ip⟩])

/-- Modelled from the spec: `handlers.DislikePost` is registered on the
router (`posts.PUT("/:id/dislike", handlers.DislikePost)`) but its
implementation is not among the sources under review.  Spec section 4.4:
the dislike transition decrements the like counter by 1 floored at 0
(never negative), deletes the identity's active like record if one
exists, and when the counter is already 0 still succeeds and returns the
unchanged 0 counter with status 200; the repository's end-to-end test
additionally fixes that the decrement applies regardless of whether the
caller holds a like record, and that the response carries the new
counter.  Returns (status, returned likes value, posts, like records). -/
def DislikePost (posts : List Post) (records : List PostLike)
    (pid ip : List Char) : Nat × Int × List Post × List PostLike :=
  match posts.find? (fun p => p.id == pid) with
  | none => (404, 0, posts, records)
  | some p =>
    let newLikes := max (p.likes - 1) 0
    (200, newLikes,
     posts.map (fun q => if q.id == pid then { q with likes := newLikes } else q),
     records.filter (fun r => !(r.postId == pid && r.ip == ip)))

/-- The apostrophe character, first pattern removed by `generateSlug`. -/
def apostropheChar : Char :=
  Char.ofNat 39

/-- Translation of `generateSlug` (post.go lines 396-408): lowercase the
title, replace every space by a hyphen, then remove every apostrophe,
double quote, period, comma, exclamation mark and question mark.  Every
`strings.ReplaceAll` there has a single-character pattern, so each is a
per-character map or filter; `strings.ToLower` is taken on ASCII. -/
def generateSlug (title : List Char) : List Char :=
  let s1 := title.map Char.toLower
  let s2 := s1.map (fun c => if c = ' ' then '-' else c)
  let s3 := s2.filter (fun c => !(c == apostropheChar))
  let s4 := s3.filter (fun c => !(c == '"'))
  let s5 := s4.filter (fun c => !(c == '.'))
  let s6 := s5.filter (fun c => !(c == ','))
  let s7 := s6.filter (fun c => !(c == '!'))
  s7.filter (fun c => !(c == '?'))

/-- The validation performed by `ShouldBindJSON(&post)` against the
binding tags of `models.Post`: `Title` is `required,min=1,max=200`,
`Content` is `required,min=1,max=50000`, `Slug` is `required,min=1,max=100`,
`Summary` is `max=500`, `Tags` is `max=10,dive,min=1,max=50,alphanum`;
`required` on a string rejects the empty string. -/
def bindPost (title content slug summary : List Char)
    (tags : List (List Char)) : Bool :=
  (decide (1 ≤ title.length) && decide (title.length ≤ 200))
  && (decide (1 ≤ content.length) && decide (content.length ≤ 50000))
  && (decide (1 ≤ slug.length) && decide (slug.length ≤ 100))
  && decide (summary.length ≤ 500)
  && (decide (tags.length ≤ 10)
      && tags.all (fun t =>
          decide (1 ≤ t.length) && decide (t.length ≤ 50) && t.all Char.isAlphanum))

/-- Translation of `CreatePost` (post.go lines 22-61), restricted to the
stored slug: a validation failure responds 400
(`RespondWithValidationError`); otherwise the stored slug is the given
slug, or `generateSlug` of the title when the given slug is empty
(post.go lines 34-37). -/
def CreatePost (title content slug summary : List Char)
    (tags : List (List Char)) : Except Nat (List Char) :=
  if bindPost title content slug summary tags then
    Except.ok (if slug = [] then generateSlug title else slug)
  else
    Except.error 400

/-- Definition following claim C10's words (the refinement target, not
translated from the code): the title lowercased, every space replaced by
a hyphen, and every apostrophe, double quote, period, comma, exclamation
mark and question mark deleted; all other characters pass through. -/
def slugSpecC10 (title : List Char) : List Char :=
  ((title.map Char.toLower).map (fun c => if c = ' ' then '-' else c)).filter
    (fun c => !(c == apostropheChar || c == '"' || c == '.'
      || c == ',' || c == '!' || c == '?'))

/-- The like counter of the post with the given id, if present. -/
def likesOf (posts : List Post) (pid : List Char) : Option Int :=
  (posts.find? (fun p => p.id == pid)).map Post.likes

theorem filterAgree_refl (l : List Int) (c0 : Int) : FilterAgree l l c0 :=
  fun _ _ => rfl

theorem filterAgree_mono {l1 l2 : List Int} {c0 c1 : Int} (h01 : c0 ≤ c1)
    (h : FilterAgree l1 l2 c0) : FilterAgree l1 l2 c1 :=
  fun c hc => h c (le_trans h01 hc)

theorem filter_filter_window (l : List Int) {c0 c : Int} (h : c0 ≤ c) :
    (l.filter (fun t => decide (c0 < t))).filter (fun t => decide (c < t))
      = l.filter (fun t => decide (c < t)) := by
  rw [List.filter_filter]
  refine List.filter_congr ?_
  intro a _
  by_cases hca : c < a
  · have : c0 < a := lt_of_le_of_lt h hca
    simp [hca, this]
  · simp [hca]

theorem filterAgree_filter_left (l : List Int) (c0 : Int) :
    FilterAgree (l.filter (fun t => decide (c0 < t))) l c0 := by
  intro c hc
  exact filter_filter_window l hc

theorem filterAgree_append {l1 l2 : List Int} {c0 : Int} (l3 : List Int)
    (h : FilterAgree l1 l2 c0) : FilterAgree (l1 ++ l3) (l2 ++ l3) c0 := by
  intro c hc
  rw [List.filter_append, List.filter_append, h c hc]

theorem filterAgree_trans {l1 l2 l3 : List Int} {c0 : Int}
    (h12 : FilterAgree l1 l2 c0) (h23 : FilterAgree l2 l3 c0) :
    FilterAgree l1 l3 c0 :=
  fun c hc => (h12 c hc).trans (h23 c hc)

theorem lookup_filter_ne (m : ReqMap) (ip k : String) (h : k ≠ ip) :
    (m.filter (fun p => !(p.1 == ip))).lookup k = m.lookup k := by
  induction m with
  | nil => rfl
  | cons p m ih =>
    rcases p with ⟨k', v⟩
    by_cases hk' : k' = ip
    · have hkk : (k == k') = false := by
        simp [hk', h]
      have hkip : (k == ip) = false := by
        simp [h]
      simp [List.filter_cons, hk', List.lookup, hkk, hkip, ih]
    · by_cases hk : k = k'
      · simp [List.filter_cons, hk', List.lookup, hk]
      · have hkk : (k == k') = false := by
          simp [hk]
        simp [List.filter_cons, hk', List.lookup, hkk, ih]

theorem lookupReqs_setReqs_self (m : ReqMap) (ip : String) (l : List Int) :
    lookupReqs (setReqs m ip l) ip = l := by
  simp [lookupReqs, setReqs, List.lookup]

theorem lookupReqs_setReqs_other (m : ReqMap) (ip : String) (l : List Int)
    (k : String) (h : k ≠ ip) :
    lookupReqs (setReqs m ip l) k = lookupReqs m k := by
  have hkk : (k == ip) = false := by simp [h]
  simp [lookupReqs, setReqs, List.lookup, hkk, lookup_filter_ne m ip k h]

theorem keysOf_setReqs_subset (m : ReqMap) (ip : String) (l : List Int) :
    keysOf (setReqs m ip l) ⊆ ip :: keysOf m := by
  intro x hx
  simp only [keysOf, setReqs, List.map_cons, List.mem_cons] at hx
  rcases hx with rfl | hx
  · exact List.mem_cons_self x _
  · rcases List.mem_map.mp hx with ⟨p, hp, rfl⟩
    exact List.mem_cons_of_mem _ (List.mem_map_of_mem _ (List.mem_of_mem_filter hp))

theorem keysOf_setReqs_nodup (m : ReqMap) (ip : String) (l : List Int)
    (h : (keysOf m).Nodup) : (keysOf (setReqs m ip l)).Nodup := by
  simp only [keysOf, setReqs, List.map_cons]
  refine List.Nodup.cons ?_ (h.sublist ((List.filter_sublist m).map Prod.fst))
  intro hmem
  rcases List.mem_map.mp hmem with ⟨p, hp, hfst⟩
  have := List.of_mem_filter hp
  simp [hfst] at this

theorem reqMap_length_le_of_keys {m : ReqMap} {ks : List String}
    (hsub : keysOf m ⊆ ks) (hnd : (keysOf m).Nodup) : m.length ≤ ks.length := by
  have := (List.subperm_of_subset hnd hsub).length_le
  simpa [keysOf] using this

theorem setReqs_length_le (m : ReqMap) (ip : String) (l : List Int) :
    (setReqs m ip l).length ≤ m.length + 1 := by
  simp only [setReqs, List.length_cons]
  exact Nat.succ_le_succ (List.length_filter_le _ m)

theorem checkRateLimit_reject {m : ReqMap} {ip : String} {N : Nat} {W now : Int}
    (h : N ≤ ((lookupReqs m ip).filter (fun t => decide (now - W < t))).length) :
    checkRateLimit m ip N W now = (false, m) := by
  simp [checkRateLimit, h]

theorem checkRateLimit_accept_small {m : ReqMap} {ip : String} {N : Nat} {W now : Int}
    (h : ((lookupReqs m ip).filter (fun t => decide (now - W < t))).length < N)
    (hlen : m.length ≤ 999) :
    checkRateLimit m ip N W now
      = (true, setReqs m ip
          ((lookupReqs m ip).filter (fun t => decide (now - W < t)) ++ [now])) := by
  have hno : ¬ 1000 <
      (setReqs m ip ((lookupReqs m ip).filter (fun t => decide (now - W < t)) ++ [now])).length := by
    have := setReqs_length_le m ip
      ((lookupReqs m ip).filter (fun t => decide (now - W < t)) ++ [now])
    omega
  simp [checkRateLimit, Nat.not_le.mpr h, hno]

theorem runCalls_nil (N : Nat) (W : Int) (m : ReqMap) :
    runCalls N W m [] = (m, []) := rfl

theorem runCalls_cons (N : Nat) (W : Int) (m : ReqMap) (ip : String)
    (now : Int) (rest : List (String × Int)) :
    runCalls N W m ((ip, now) :: rest)
      = ((runCalls N W (checkRateLimit m ip N W now).2 rest).1,
         (checkRateLimit m ip N W now).1
           :: (runCalls N W (checkRateLimit m ip N W now).2 rest).2) := rfl

theorem specAdmit_nil (N : Nat) (W : Int) (adm : List Int) :
    specAdmit N W adm [] = [] := rfl

theorem specAdmit_cons (N : Nat) (W : Int) (adm : List Int) (now : Int)
    (rest : List Int) :
    specAdmit N W adm (now :: rest)
      = decide ((adm.filter (fun t => decide (now - W < t))).length < N)
        :: specAdmit N W
             (if (adm.filter (fun t => decide (now - W < t))).length < N
              then adm ++ [now] else adm) rest := rfl

theorem singleton_keys_length {m : ReqMap} {ip : String}
    (hsub : keysOf m ⊆ [ip]) (hnd : (keysOf m).Nodup) : m.length ≤ 1 := by
  simpa using reqMap_length_le_of_keys hsub hnd

/-- Main simulation lemma for claim C1: for a single key starting from any
window-filter equivalent pair of states, the implementation results equal
the specification results, provided call times are nondecreasing. -/
theorem runCalls_spec_single (N : Nat) (W : Int) (ip : String) :
    ∀ (times : List Int) (m : ReqMap) (adm : List Int) (t0 : Int),
      keysOf m ⊆ [ip] → (keysOf m).Nodup →
      FilterAgree (lookupReqs m ip) adm (t0 - W) →
      (∀ t ∈ times, t0 ≤ t) → times.Sorted (· ≤ ·) →
      (runCalls N W m (times.map (fun t => (ip, t)))).2 = specAdmit N W adm times := by
  intro times
  induction times with
  | nil =>
    intro m adm t0 _ _ _ _ _
    rfl
  | cons now rest ih =>
    intro m adm t0 hsub hnd hFA hbound hsorted
    have ht0 : t0 ≤ now := hbound now (List.mem_cons_self _ _)
    have hFA' : FilterAgree (lookupReqs m ip) adm (now - W) :=
      filterAgree_mono (by omega) hFA
    have hvalid : (lookupReqs m ip).filter (fun t => decide (now - W < t))
        = adm.filter (fun t => decide (now - W < t)) := hFA' (now - W) le_rfl
    have hrest_bound : ∀ t ∈ rest, now ≤ t := (List.sorted_cons.mp hsorted).1
    have hrest_sorted : rest.Sorted (· ≤ ·) := (List.sorted_cons.mp hsorted).2
    rw [List.map_cons, runCalls_cons, specAdmit_cons]
    by_cases hN : (adm.filter (fun t => decide (now - W < t))).length < N
    · have hmlen : m.length ≤ 999 := by
        have := singleton_keys_length hsub hnd
        omega
      have hstep := @checkRateLimit_accept_small m ip N W now
        (by rw [hvalid]; exact hN) hmlen
      rw [hstep, if_pos hN]
      simp only [decide_eq_true hN]
      congr 1
      refine ih _ _ now ?_ ?_ ?_ hrest_bound hrest_sorted
      · exact (keysOf_setReqs_subset m ip _).trans (by
          intro x hx
          rcases List.mem_cons.mp hx with rfl | hx
          · exact List.mem_cons_self _ _
          · exact hsub hx)
      · exact keysOf_setReqs_nodup m ip _ hnd
      · rw [lookupReqs_setReqs_self, hvalid]
        exact filterAgree_append [now] (filterAgree_filter_left adm (now - W))
    · have hstep := @checkRateLimit_reject m ip N W now (by rw [hvalid]; omega)
      rw [hstep, if_neg hN]
      simp only [decide_eq_false hN]
      congr 1
      exact ih m adm now hsub hnd
        (filterAgree_mono (by omega) hFA') hrest_bound hrest_sorted

/-- With a zero limit every call is rejected and the store never changes. -/
theorem runCalls_zero_limit (W : Int) :
    ∀ (calls : List (String × Int)) (m : ReqMap),
      runCalls 0 W m calls = (m, List.replicate calls.length false) := by
  intro calls
  induction calls with
  | nil =>
    intro m
    rfl
  | cons c rest ih =>
    intro m
    rcases c with ⟨ip, now⟩
    have hstep : checkRateLimit m ip 0 W now = (false, m) :=
      checkRateLimit_reject (Nat.zero_le _)
    rw [runCalls_cons, hstep, ih m]
    rfl

/-- Specification-side counting: starting below the limit, a cluster of
calls that all lie within one window of each other admits exactly the
first `N` and rejects the next. -/
theorem specAdmit_cluster (N : Nat) (W : Int) :
    ∀ (times adm : List Int),
      (∀ t1 ∈ adm ++ times, ∀ t2 ∈ adm ++ times, t2 - t1 < W) →
      adm.length ≤ N →
      adm.length + times.length = N + 1 →
      specAdmit N W adm times
        = List.replicate (N - adm.length) true ++ [false] := by
  intro times
  induction times with
  | nil =>
    intro adm _ hle hlen
    simp at hlen
    omega
  | cons now rest ih =>
    intro adm hpair hle hlen
    have hnow : now ∈ adm ++ now :: rest := by simp
    have hfilter : adm.filter (fun t => decide (now - W < t)) = adm := by
      rw [List.filter_eq_self]
      intro a ha
      have := hpair a (List.mem_append_left _ ha) now hnow
      simp only [decide_eq_true_eq]
      omega
    rw [specAdmit_cons, hfilter]
    by_cases hN : adm.length < N
    · rw [if_pos hN]
      simp only [decide_eq_true hN]
      have hk : N - adm.length = (N - (adm.length + 1)) + 1 := by omega
      rw [hk, List.replicate_succ, List.cons_append]
      congr 1
      have : N - (adm.length + 1) = N - (adm ++ [now]).length := by
        simp
      rw [this]
      refine ih (adm ++ [now]) ?_ ?_ ?_
      · intro t1 ht1 t2 ht2
        refine hpair t1 ?_ t2 ?_ <;> simp at ht1 ht2 ⊢ <;> tauto
      · simp
        omega
      · simp at hlen ⊢
        omega
    · rw [if_neg hN]
      have hEq : adm.length = N := by omega
      have hrest : rest = [] := by
        have : rest.length = 0 := by
          simp at hlen
          omega
        exact List.length_eq_zero.mp this
      subst hrest
      simp [hN, hEq, specAdmit_nil]

/-- When some recorded timestamp of the key has fallen out of the window
and at most `N` timestamps are recorded, the next call is admitted. -/
theorem checkRateLimit_expired_accepts {m : ReqMap} {ip : String} {N : Nat}
    {W now : Int} (hlen : (lookupReqs m ip).length ≤ N)
    (hex : ∃ t ∈ lookupReqs m ip, t ≤ now - W) :
    (checkRateLimit m ip N W now).1 = true := by
  rcases hex with ⟨t, htmem, ht⟩
  have hlt : ((lookupReqs m ip).filter (fun t => decide (now - W < t))).length
      < (lookupReqs m ip).length := by
    refine Nat.lt_of_le_of_ne (List.length_filter_le _ _) ?_
    intro heq
    have := List.filter_length_eq_length.mp heq t htmem
    simp at this
    omega
  have hacc : ((lookupReqs m ip).filter (fun t => decide (now - W < t))).length < N := by
    omega
  simp [checkRateLimit, Nat.not_le.mpr hacc]

theorem selectKey_cons (k : String) (c : String × Int) (cs : List (String × Int))
    (b : Bool) (bs : List Bool) :
    selectKey k (c :: cs) (b :: bs)
      = if c.1 == k then b :: selectKey k cs bs else selectKey k cs bs := rfl

theorem pair_keys_length {m : ReqMap} {A B : String}
    (hsub : keysOf m ⊆ [A, B]) (hnd : (keysOf m).Nodup) : m.length ≤ 2 := by
  simpa using reqMap_length_le_of_keys hsub hnd

theorem checkRateLimit_state_cases (m : ReqMap) (ip : String) (N : Nat)
    (W now : Int) (hlen : m.length ≤ 999) :
    (checkRateLimit m ip N W now).2 = m ∨
    (checkRateLimit m ip N W now).2
      = setReqs m ip
          ((lookupReqs m ip).filter (fun t => decide (now - W < t)) ++ [now]) := by
  by_cases h : N ≤ ((lookupReqs m ip).filter (fun t => decide (now - W < t))).length
  · left
    rw [checkRateLimit_reject h]
  · right
    rw [checkRateLimit_accept_small (Nat.not_le.mp h) hlen]

/-- Main simulation lemma for claim C6: in a monotone-time trace touching
only keys `A` and `B`, the decisions observed by `B` coincide with the
decisions of the trace containing only `B`'s calls. -/
theorem runCalls_independent (N : Nat) (W : Int) (A B : String) (hAB : A ≠ B) :
    ∀ (calls : List (String × Int)) (m mb : ReqMap) (t0 : Int),
      keysOf m ⊆ [A, B] → (keysOf m).Nodup →
      keysOf mb ⊆ [B] → (keysOf mb).Nodup →
      FilterAgree (lookupReqs m B) (lookupReqs mb B) (t0 - W) →
      (∀ c ∈ calls, c.1 = A ∨ c.1 = B) →
      (∀ c ∈ calls, t0 ≤ c.2) →
      (calls.map Prod.snd).Sorted (· ≤ ·) →
      selectKey B calls (runCalls N W m calls).2
        = (runCalls N W mb (calls.filter (fun c => c.1 == B))).2 := by
  intro calls
  induction calls with
  | nil =>
    intros
    rfl
  | cons c rest ih =>
    intro m mb t0 hmsub hmnd hbsub hbnd hFA hkeys hbound hsorted
    rcases c with ⟨k, now⟩
    have ht0 : t0 ≤ now := hbound _ (List.mem_cons_self _ _)
    have hsorted' : (now :: rest.map Prod.snd).Sorted (· ≤ ·) := by
      simpa using hsorted
    have hrest_bound : ∀ c ∈ rest, now ≤ c.2 := by
      intro c hc
      exact (List.sorted_cons.mp hsorted').1 _ (List.mem_map_of_mem _ hc)
    have hrest_sorted : (rest.map Prod.snd).Sorted (· ≤ ·) :=
      (List.sorted_cons.mp hsorted').2
    have hrest_keys : ∀ c ∈ rest, c.1 = A ∨ c.1 = B := by
      intro c hc
      exact hkeys c (List.mem_cons_of_mem _ hc)
    have hFA' : FilterAgree (lookupReqs m B) (lookupReqs mb B) (now - W) :=
      filterAgree_mono (by omega) hFA
    have hm999 : m.length ≤ 999 := by
      have := pair_keys_length hmsub hmnd
      omega
    have hk1 : k = A ∨ k = B := by
      simpa using hkeys _ (List.mem_cons_self _ _)
    rcases hk1 with rfl | rfl
    · -- a call for the other key: invisible to B
      have hABf : (k == B) = false := by simp [hAB]
      rw [show ((k, now) :: rest).filter (fun c => c.1 == B)
            = rest.filter (fun c => c.1 == B) by simp [List.filter_cons, hABf]]
      rw [runCalls_cons, selectKey_cons]
      simp only [hABf, if_false]
      have hBA : B ≠ k := fun h => hAB h.symm
      rcases checkRateLimit_state_cases m k N W now hm999 with hst | hst
      · rw [hst]
        exact ih m mb now hmsub hmnd hbsub hbnd hFA' hrest_keys hrest_bound hrest_sorted
      · rw [hst]
        refine ih _ mb now ?_ ?_ hbsub hbnd ?_ hrest_keys hrest_bound hrest_sorted
        · refine (keysOf_setReqs_subset m k _).trans ?_
          intro x hx
          rcases List.mem_cons.mp hx with rfl | hx
          · simp
          · exact hmsub hx
        · exact keysOf_setReqs_nodup m k _ hmnd
        · rw [lookupReqs_setReqs_other m k _ B hBA]
          exact hFA'
    · -- a call for key B itself: both runs take the same decision
      have hBB : (k == k) = true := by simp
      rw [show ((k, now) :: rest).filter (fun c => c.1 == k)
            = (k, now) :: rest.filter (fun c => c.1 == k) by
            simp [List.filter_cons]]
      have hvalid : (lookupReqs m k).filter (fun t => decide (now - W < t))
          = (lookupReqs mb k).filter (fun t => decide (now - W < t)) :=
        hFA' (now - W) le_rfl
      have hb999 : mb.length ≤ 999 := by
        have := singleton_keys_length hbsub hbnd
        omega
      rw [runCalls_cons, runCalls_cons, selectKey_cons]
      simp only [hBB, if_true]
      by_cases hd : N ≤ ((lookupReqs m k).filter (fun t => decide (now - W < t))).length
      · have hstepm := @checkRateLimit_reject m k N W now hd
        have hstepb := @checkRateLimit_reject mb k N W now
          (by rw [← hvalid]; exact hd)
        rw [hstepm, hstepb]
        have htl := ih m mb now hmsub hmnd hbsub hbnd hFA' hrest_keys
          hrest_bound hrest_sorted
        simpa using htl
      · have hstepm := @checkRateLimit_accept_small m k N W now
          (Nat.not_le.mp hd) hm999
        have hstepb := @checkRateLimit_accept_small mb k N W now
          (by rw [← hvalid]; exact Nat.not_le.mp hd) hb999
        rw [hstepm, hstepb]
        have htl := ih
          (setReqs m k ((lookupReqs m k).filter (fun t => decide (now - W < t)) ++ [now]))
          (setReqs mb k ((lookupReqs mb k).filter (fun t => decide (now - W < t)) ++ [now]))
          now ?_ ?_ ?_ ?_ ?_ hrest_keys hrest_bound hrest_sorted
        · simpa using htl
        · refine (keysOf_setReqs_subset m k _).trans ?_
          intro x hx
          rcases List.mem_cons.mp hx with rfl | hx
          · simp
          · exact hmsub hx
        · exact keysOf_setReqs_nodup m k _ hmnd
        · refine (keysOf_setReqs_subset mb k _).trans ?_
          intro x hx
          rcases List.mem_cons.mp hx with rfl | hx
          · simp
          · exact hbsub hx
        · exact keysOf_setReqs_nodup mb k _ hbnd
        · rw [lookupReqs_setReqs_self, lookupReqs_setReqs_self, hvalid]
          exact filterAgree_refl _ _

theorem checkRateLimit_accept_fst {m : ReqMap} {ip : String} {N : Nat}
    {W now : Int}
    (h : ((lookupReqs m ip).filter (fun t => decide (now - W < t))).length < N) :
    (checkRateLimit m ip N W now).1 = true := by
  simp [checkRateLimit, Nat.not_le.mpr h]

/-- C1: for every key, window and bound `N ≥ 0`, in any monotone-time
sequence of `checkRateLimit` calls for that key: (1) the decisions equal
the specification `specAdmit`, which admits a call iff fewer than `N`
previously admitted calls lie inside the trailing window; (2) `N = 0`
rejects every call, including the very first; (3) a rejected call records
nothing; (4) of `N + 1` calls inside one window span, exactly the first
`N` succeed and the last fails; (5) once the window has elapsed past a
recorded call (at most `N` being recorded), the next call succeeds. -/
theorem checkRateLimit_sliding_window (N : Nat) (W : Int) (ip : String) :
    (∀ times : List Int, times.Sorted (· ≤ ·) →
        (runCalls N W [] (times.map (fun t => (ip, t)))).2 = specAdmit N W [] times)
  ∧ (N = 0 → ∀ (calls : List (String × Int)) (m : ReqMap),
        (runCalls N W m calls).2 = List.replicate calls.length false)
  ∧ (∀ (m : ReqMap) (now : Int),
        (checkRateLimit m ip N W now).1 = false →
        (checkRateLimit m ip N W now).2 = m)
  ∧ (∀ times : List Int, times.Sorted (· ≤ ·) → times.length = N + 1 →
        (∀ t1 ∈ times, ∀ t2 ∈ times, t2 - t1 < W) →
        (runCalls N W [] (times.map (fun t => (ip, t)))).2
          = List.replicate N true ++ [false])
  ∧ (∀ (m : ReqMap) (now : Int), (lookupReqs m ip).length ≤ N →
        (∃ t ∈ lookupReqs m ip, t ≤ now - W) →
        (checkRateLimit m ip N W now).1 = true) := by
  have main : ∀ times : List Int, times.Sorted (· ≤ ·) →
      (runCalls N W [] (times.map (fun t => (ip, t)))).2 = specAdmit N W [] times := by
    intro times hs
    cases times with
    | nil => rfl
    | cons a rest =>
      refine runCalls_spec_single N W ip (a :: rest) [] [] a ?_ ?_ ?_ ?_ hs
      · intro x hx
        simp [keysOf] at hx
      · simp [keysOf]
      · exact filterAgree_refl _ _
      · intro t ht
        rcases List.mem_cons.mp ht with rfl | ht
        · exact le_rfl
        · exact (List.sorted_cons.mp hs).1 _ ht
  refine ⟨main, ?_, ?_, ?_, ?_⟩
  · intro hN0 calls m
    subst hN0
    rw [runCalls_zero_limit W calls m]
  · intro m now h
    by_cases hc : N ≤ ((lookupReqs m ip).filter (fun t => decide (now - W < t))).length
    · rw [checkRateLimit_reject hc]
    · rw [checkRateLimit_accept_fst (Nat.not_le.mp hc)] at h
      simp at h
  · intro times hs hlen hpair
    rw [main times hs]
    have h := specAdmit_cluster N W times [] (by simpa using hpair)
      (Nat.zero_le N) (by simpa using hlen)
    simpa using h
  · intro m now h1 h2
    exact checkRateLimit_expired_accepts h1 h2

/-- Witness for C1 at a concrete trace: limit 2, window 10, calls at
times 0, 1, 2 and 15 give admit, admit, reject, admit. -/
theorem checkRateLimit_sliding_window_witness :
    (runCalls 2 10 [] ([0, 1, 2, 15].map (fun t => (("k" : String), t)))).2
      = [true, true, false, true] := by
  have h := (checkRateLimit_sliding_window 2 10 "k").1 [0, 1, 2, 15] (by decide)
  rw [h]
  decide

/-- C6: rate windows for distinct keys are independent: in any
monotone-time trace over two distinct keys, the decisions for key `B`
are exactly those of the trace with key `A`'s calls removed. -/
theorem checkRateLimit_distinct_keys_independent (N : Nat) (W : Int)
    (A B : String) (hAB : A ≠ B) (calls : List (String × Int))
    (hkeys : ∀ c ∈ calls, c.1 = A ∨ c.1 = B)
    (hmono : (calls.map Prod.snd).Sorted (· ≤ ·)) :
    selectKey B calls (runCalls N W [] calls).2
      = (runCalls N W [] (calls.filter (fun c => c.1 == B))).2 := by
  cases calls with
  | nil => rfl
  | cons c rest =>
    refine runCalls_independent N W A B hAB (c :: rest) [] [] c.2
      ?_ ?_ ?_ ?_ ?_ hkeys ?_ hmono
    · intro x hx
      simp [keysOf] at hx
    · simp [keysOf]
    · intro x hx
      simp [keysOf] at hx
    · simp [keysOf]
    · exact filterAgree_refl _ _
    · intro d hd
      rcases List.mem_cons.mp hd with rfl | hd
      · exact le_rfl
      · have hs : (c.2 :: rest.map Prod.snd).Sorted (· ≤ ·) := by
          simpa using hmono
        exact (List.sorted_cons.mp hs).1 _ (List.mem_map_of_mem _ hd)

/-- Witness for C6: key A exhausts a limit of 1 and key B's two calls
still see exactly the decisions of a B-only trace. -/
theorem checkRateLimit_distinct_keys_independent_witness :
    selectKey "B" [("A", 0), ("A", 1), ("B", 2), ("A", 3), ("B", 4)]
        (runCalls 1 10 [] [("A", 0), ("A", 1), ("B", 2), ("A", 3), ("B", 4)]).2
      = (runCalls 1 10 []
          ([("A", 0), ("A", 1), ("B", 2), ("A", 3), ("B", 4)].filter
            (fun c => c.1 == "B"))).2 :=
  checkRateLimit_distinct_keys_independent 1 10 "A" "B" (by decide) _
    (by decide) (by decide)

/-- C8: a `checkRateLimit` call that returns false leaves the whole store
untouched: the rejected key keeps even its expired timestamps (the purge
computed during the call is not written back), every other key's entry is
unchanged, and in particular the cleanup sweep does not run. -/
theorem checkRateLimit_reject_frame :
    ∀ (m : ReqMap) (ip : String) (N : Nat) (W now : Int),
      (checkRateLimit m ip N W now).1 = false →
      (checkRateLimit m ip N W now).2 = m
        ∧ ∀ k, lookupReqs (checkRateLimit m ip N W now).2 k = lookupReqs m k := by
  intro m ip N W now h
  by_cases hc : N ≤ ((lookupReqs m ip).filter (fun t => decide (now - W < t))).length
  · rw [checkRateLimit_reject hc]
    exact ⟨rfl, fun _ => rfl⟩
  · rw [checkRateLimit_accept_fst (Nat.not_le.mp hc)] at h
    simp at h

/-- Witness for C8: a rejected call (limit 1, one in-window timestamp,
including an expired timestamp that stays recorded) leaves the store
equal to what it was. -/
theorem checkRateLimit_reject_frame_witness :
    (checkRateLimit [("k", [-100, 5]), ("j", [3])] "k" 1 10 6).2
        = [("k", [-100, 5]), ("j", [3])]
      ∧ ∀ q, lookupReqs (checkRateLimit [("k", [-100, 5]), ("j", [3])] "k" 1 10 6).2 q
          = lookupReqs [("k", [-100, 5]), ("j", [3])] q :=
  checkRateLimit_reject_frame [("k", [-100, 5]), ("j", [3])] "k" 1 10 6 (by decide)

/-- C4: authentication succeeds iff the provided credential equals one of
the trimmed, nonempty comma-separated configured keys; with a nonempty
configured string and no match (including a missing or empty header) the
response is 401; with an empty configured string the response is the
500-class misconfiguration error; no request is ever silently allowed. -/
theorem AdminAuthMiddleware_key_matching (adminAPIKeys providedKey : List Char) :
    (AdminAuthMiddleware adminAPIKeys providedKey = AuthOutcome.allowed
      ↔ (adminAPIKeys ≠ [] ∧ ∃ k ∈ splitComma adminAPIKeys,
            trimSpace k ≠ [] ∧ providedKey = trimSpace k))
  ∧ (adminAPIKeys ≠ [] →
      (¬ ∃ k ∈ splitComma adminAPIKeys,
          trimSpace k ≠ [] ∧ providedKey = trimSpace k) →
      authErrorStatus (AdminAuthMiddleware adminAPIKeys providedKey) = some 401)
  ∧ (adminAPIKeys = [] →
      authErrorStatus (AdminAuthMiddleware adminAPIKeys providedKey) = some 500) := by
  have hany : ((splitComma adminAPIKeys).any
      (fun k => !(trimSpace k == [])
        && constantTimeCompare providedKey (trimSpace k)) = true)
      ↔ ∃ k ∈ splitComma adminAPIKeys,
          trimSpace k ≠ [] ∧ providedKey = trimSpace k := by
    rw [List.any_eq_true]
    constructor
    · rintro ⟨k, hk, hp⟩
      simp only [constantTimeCompare, Bool.and_eq_true, beq_iff_eq,
        Bool.not_eq_true'] at hp
      refine ⟨k, hk, ?_, hp.2⟩
      intro he
      rw [he] at hp
      simp at hp
    · rintro ⟨k, hk, hne, heq⟩
      refine ⟨k, hk, ?_⟩
      simp [constantTimeCompare, hne, heq]
  have e1 : adminAPIKeys = [] →
      AdminAuthMiddleware adminAPIKeys providedKey = AuthOutcome.misconfigured := by
    intro h1
    simp [AdminAuthMiddleware, h1]
  have e2 : adminAPIKeys ≠ [] → providedKey = [] →
      AdminAuthMiddleware adminAPIKeys providedKey = AuthOutcome.missingHeader := by
    intro h1 h2
    simp [AdminAuthMiddleware, h1, h2]
  have e3 : adminAPIKeys ≠ [] → providedKey ≠ [] →
      (splitComma adminAPIKeys).any
        (fun k => !(trimSpace k == [])
          && constantTimeCompare providedKey (trimSpace k)) = true →
      AdminAuthMiddleware adminAPIKeys providedKey = AuthOutcome.allowed := by
    intro h1 h2 h3
    simp only [AdminAuthMiddleware, if_neg h1, if_neg h2, h3, if_true]
  have e4 : adminAPIKeys ≠ [] → providedKey ≠ [] →
      (splitComma adminAPIKeys).any
        (fun k => !(trimSpace k == [])
          && constantTimeCompare providedKey (trimSpace k)) = false →
      AdminAuthMiddleware adminAPIKeys providedKey = AuthOutcome.invalidKey := by
    intro h1 h2 h3
    simp only [AdminAuthMiddleware, if_neg h1, if_neg h2, h3]
    rfl
  refine ⟨?_, ?_, ?_⟩
  · constructor
    · intro h
      by_cases h1 : adminAPIKeys = []
      · rw [e1 h1] at h
        cases h
      · by_cases h2 : providedKey = []
        · rw [e2 h1 h2] at h
          cases h
        · cases h3 : (splitComma adminAPIKeys).any
              (fun k => !(trimSpace k == [])
                && constantTimeCompare providedKey (trimSpace k)) with
          | false =>
            rw [e4 h1 h2 h3] at h
            cases h
          | true =>
            exact ⟨h1, hany.mp h3⟩
    · rintro ⟨h1, hex⟩
      have h2 : providedKey ≠ [] := by
        rcases hex with ⟨k, _, hne, heq⟩
        rw [heq]
        exact hne
      exact e3 h1 h2 (hany.mpr hex)
  · intro h1 hnex
    have h3 : (splitComma adminAPIKeys).any
        (fun k => !(trimSpace k == [])
          && constantTimeCompare providedKey (trimSpace k)) = false := by
      cases h : (splitComma adminAPIKeys).any
          (fun k => !(trimSpace k == [])
            && constantTimeCompare providedKey (trimSpace k))
      · rfl
      · exact absurd (hany.mp h) hnex
    by_cases h2 : providedKey = []
    · rw [e2 h1 h2]
      rfl
    · rw [e4 h1 h2 h3]
      rfl
  · intro h1
    rw [e1 h1]
    rfl

/-- Witness for C4: with configured keys `"key1, key2"`, the credential
`"key2"` is allowed, the credential `"wrong"` and the empty credential
get 401, and an empty configured string gets 500. -/
theorem AdminAuthMiddleware_key_matching_witness :
    AdminAuthMiddleware ("key1, key2".toList) ("key2".toList) = AuthOutcome.allowed
  ∧ authErrorStatus (AdminAuthMiddleware ("key1, key2".toList) ("wrong".toList)) = some 401
  ∧ authErrorStatus (AdminAuthMiddleware ("key1, key2".toList) []) = some 401
  ∧ authErrorStatus (AdminAuthMiddleware [] ("key2".toList)) = some 500 := by
  refine ⟨?_, ?_, ?_, ?_⟩
  · exact (AdminAuthMiddleware_key_matching ("key1, key2".toList) ("key2".toList)).1.mpr
      (by decide)
  · exact (AdminAuthMiddleware_key_matching ("key1, key2".toList) ("wrong".toList)).2.1
      (by decide) (by decide)
  · exact (AdminAuthMiddleware_key_matching ("key1, key2".toList) []).2.1
      (by decide) (by decide)
  · exact (AdminAuthMiddleware_key_matching [] ("key2".toList)).2.2 (by decide)

/-- C5 (code bug evidence): with default configuration, non-GET requests
to the dislike, like and view endpoints — whose raw URL paths contain a
concrete post id — are all admitted against the 100/min default tier,
because the middleware compares the raw path with the literal route
patterns; only the literal string `/api/v1/posts/:id/like` would select
the 60/min social tier, and no dislike path is listed at all. -/
theorem PublicRateLimit_social_tier_mismatch :
    PublicRateLimitMiddleware none none none "PUT"
        "/api/v1/posts/507f1f77bcf86cd799439011/dislike" = 100
  ∧ PublicRateLimitMiddleware none none none "PUT"
        "/api/v1/posts/507f1f77bcf86cd799439011/like" = 100
  ∧ PublicRateLimitMiddleware none none none "PUT"
        "/api/v1/posts/507f1f77bcf86cd799439011/view" = 100
  ∧ PublicRateLimitMiddleware none none none "PUT" "/api/v1/posts/:id/like" = 60 :=
  ⟨rfl, rfl, rfl, rfl⟩

theorem containsSuspiciousPatterns_eq (input : List Char) :
    containsSuspiciousPatterns input
      = (suspiciousPatterns.any
          (fun pat => containsSub pat (input.map Char.toLower))
         || jsRegexMatch (input.map Char.toLower)) := rfl

theorem char_toNat_ofNat {n : Nat} (h : n.isValidChar) :
    (Char.ofNat n).toNat = n := by
  unfold Char.ofNat
  rw [dif_pos h]
  rfl

theorem toLower_lower_or_eq (c : Char) :
    (97 ≤ (Char.toLower c).toNat ∧ (Char.toLower c).toNat ≤ 122)
      ∨ Char.toLower c = c := by
  unfold Char.toLower
  by_cases h : c.toNat ≥ 65 ∧ c.toNat ≤ 90
  · left
    rw [if_pos h]
    have hv : (c.toNat + 32).isValidChar := Or.inl (by omega)
    rw [char_toNat_ofNat hv]
    omega
  · right
    rw [if_neg h]

theorem mem_map_toLower_low {input : List Char} {b : Char}
    (hb : b ∈ input.map Char.toLower) (hlow : b.toNat < 97) : b ∈ input := by
  rcases List.mem_map.mp hb with ⟨c, hc, rfl⟩
  rcases toLower_lower_or_eq c with ⟨h1, _⟩ | heq
  · omega
  · rw [heq]
    exact hc

theorem anySuffix_exists {p : List Char → Bool} {s : List Char}
    (h : anySuffix p s = true) : ∃ t, t <:+ s ∧ p t = true := by
  induction s with
  | nil => exact ⟨[], List.nil_suffix, h⟩
  | cons c rest ih =>
    rcases Bool.or_eq_true_iff.mp h with h1 | h2
    · exact ⟨c :: rest, List.suffix_refl _, h1⟩
    · rcases ih h2 with ⟨t, ht, hp⟩
      exact ⟨t, ht.trans (List.suffix_cons c rest), hp⟩

theorem containsSub_subset {pat s : List Char} (h : containsSub pat s = true) :
    ∀ b ∈ pat, b ∈ s := by
  rcases anySuffix_exists h with ⟨t, hts, hp⟩
  have hpre : pat <+: t := by
    simpa using hp
  intro b hb
  exact hts.subset (hpre.subset hb)

theorem kwParenAt_paren {kw t : List Char} (h : kwParenAt kw t = true) :
    '(' ∈ t := by
  unfold kwParenAt at h
  simp only [Bool.and_eq_true] at h
  obtain ⟨_, h2⟩ := h
  have h2' : ((t.drop kw.length).dropWhile goSpace).head? = some '(' := by
    simpa using h2
  have hmem : '(' ∈ (t.drop kw.length).dropWhile goSpace := by
    cases hcase : (t.drop kw.length).dropWhile goSpace with
    | nil => rw [hcase] at h2'; cases h2'
    | cons x xs =>
      rw [hcase] at h2'
      have : x = '(' := by
        simpa using h2'
      rw [hcase] at hcase ⊢
      rw [← this]
      exact List.mem_cons_self x xs
  exact (List.drop_suffix kw.length t).subset
    ((List.dropWhile_suffix goSpace).subset hmem)

theorem suspiciousPatterns_bad_char :
    ∀ p ∈ suspiciousPatterns, ∃ b ∈ p, b.toNat < 97 ∧ b.isAlphanum = false := by
  decide

theorem containsSuspiciousPatterns_alphanum {input : List Char}
    (h : input.all Char.isAlphanum = true) :
    containsSuspiciousPatterns input = false := by
  cases hcp : containsSuspiciousPatterns input
  · rfl
  · exfalso
    have hball : ∀ x ∈ input, Char.isAlphanum x = true := List.all_eq_true.mp h
    unfold containsSuspiciousPatterns at hcp
    rcases Bool.or_eq_true_iff.mp hcp with hpat | hjs
    · rcases List.any_eq_true.mp hpat with ⟨p, hpmem, hc⟩
      rcases suspiciousPatterns_bad_char p hpmem with ⟨b, hbp, hblow, hbal⟩
      have hbmem : b ∈ input.map Char.toLower := containsSub_subset hc b hbp
      have hbin : b ∈ input := mem_map_toLower_low hbmem hblow
      have := hball b hbin
      rw [hbal] at this
      cases this
    · have hbad : ∃ b, b ∈ input.map Char.toLower
          ∧ b.toNat < 97 ∧ b.isAlphanum = false := by
        unfold jsRegexMatch at hjs
        rcases Bool.or_eq_true_iff.mp hjs with hjs4 | h5
        · rcases Bool.or_eq_true_iff.mp hjs4 with hjs3 | h4
          · rcases Bool.or_eq_true_iff.mp hjs3 with hjs2 | h3
            · rcases Bool.or_eq_true_iff.mp hjs2 with h1 | h2
              · rcases anySuffix_exists h1 with ⟨t, hts, hp⟩
                exact ⟨'(', hts.subset (kwParenAt_paren hp), by decide, by decide⟩
              · rcases anySuffix_exists h2 with ⟨t, hts, hp⟩
                exact ⟨'(', hts.subset (kwParenAt_paren hp), by decide, by decide⟩
            · exact ⟨'.', containsSub_subset h3 '.' (by decide), by decide, by decide⟩
          · exact ⟨'.', containsSub_subset h4 '.' (by decide), by decide, by decide⟩
        · exact ⟨'.', containsSub_subset h5 '.' (by decide), by decide, by decide⟩
      rcases hbad with ⟨b, hbm, hbl, hba⟩
      have hbin := mem_map_toLower_low hbm hbl
      have := hball b hbin
      rw [hba] at this
      cases this

/-- C7: the sanitizer rejects (HTTP 400) every query or path parameter
value that contains one of the listed operator-injection tokens in any
letter case (the lowercased value contains the token), and accepts every
purely alphanumeric parameter value. -/
theorem inputSanitizer_reject_accept :
    (∀ p ∈ suspiciousPatterns, ∀ v : List Char,
        containsSub p (v.map Char.toLower) = true →
        ∀ qs ps : List (List Char), v ∈ qs ∨ v ∈ ps →
        InputSanitizationMiddleware qs ps = true)
  ∧ (∀ qs ps : List (List Char),
        (∀ v, v ∈ qs ∨ v ∈ ps → v.all Char.isAlphanum = true) →
        InputSanitizationMiddleware qs ps = false) := by
  constructor
  · intro p hp v hc qs ps hv
    have hflag : containsSuspiciousPatterns v = true := by
      rw [containsSuspiciousPatterns_eq,
        List.any_eq_true.mpr ⟨p, hp, hc⟩]
      rfl
    unfold InputSanitizationMiddleware
    rcases hv with hv | hv
    · rw [List.any_eq_true.mpr ⟨v, hv, hflag⟩]
      rfl
    · rw [List.any_eq_true.mpr ⟨v, hv, hflag⟩]
      simp
  · intro qs ps hall
    unfold InputSanitizationMiddleware
    have hq : qs.any containsSuspiciousPatterns = false := by
      rw [List.any_eq_false]
      intro v hv hvt
      rw [containsSuspiciousPatterns_alphanum (hall v (Or.inl hv))] at hvt
      cases hvt
    have hp2 : ps.any containsSuspiciousPatterns = false := by
      rw [List.any_eq_false]
      intro v hv hvt
      rw [containsSuspiciousPatterns_alphanum (hall v (Or.inr hv))] at hvt
      cases hvt
    rw [hq, hp2]
    rfl

/-- Witness for C7: the value `a$WHEREb` (mixed case) is rejected and the
purely alphanumeric values `abc123`, `XYZ789` are accepted. -/
theorem inputSanitizer_reject_accept_witness :
    InputSanitizationMiddleware ["a$WHEREb".toList] [] = true
  ∧ InputSanitizationMiddleware ["abc123".toList] ["XYZ789".toList] = false := by
  constructor
  · exact (inputSanitizer_reject_accept).1 ("$where".toList) (by decide)
      ("a$WHEREb".toList) (by decide) _ _ (Or.inl (by decide))
  · refine (inputSanitizer_reject_accept).2 _ _ ?_
    intro v hv
    rcases hv with hv | hv
    · rw [List.mem_singleton] at hv
      subst hv
      decide
    · rw [List.mem_singleton] at hv
      subst hv
      decide

theorem find?_map_id_pred (f : Post → Post) (hid : ∀ q, (f q).id = q.id)
    (posts : List Post) (x : List Char) :
    (posts.map f).find? (fun p => p.id == x)
      = (posts.find? (fun p => p.id == x)).map f := by
  induction posts with
  | nil => rfl
  | cons q rest ih =>
    cases hq : (q.id == x) with
    | true =>
      have hfq : ((f q).id == x) = true := by rw [hid q]; exact hq
      rw [List.map_cons,
        show List.find? (fun p => p.id == x) (f q :: List.map f rest)
          = some (f q) from List.find?_cons_of_pos _ hfq,
        show List.find? (fun p => p.id == x) (q :: rest)
          = some q from List.find?_cons_of_pos _ hq,
        Option.map_some']
    | false =>
      have hfq : ¬ ((f q).id == x) = true := by rw [hid q]; simp [hq]
      have hq' : ¬ (q.id == x) = true := by simp [hq]
      rw [List.map_cons,
        show List.find? (fun p => p.id == x) (f q :: List.map f rest)
          = List.find? (fun p => p.id == x) (List.map f rest)
          from List.find?_cons_of_neg _ hfq,
        show List.find? (fun p => p.id == x) (q :: rest)
          = List.find? (fun p => p.id == x) rest
          from List.find?_cons_of_neg _ hq',
        ih]

/-- C3: a like while an active like record for this (post, identity) pair
exists is rejected as a 409 conflict and leaves posts and like records
unchanged; a successful like inserts exactly one like record and
increments exactly the liked post's counter by 1, leaving every other
post's counter unchanged. -/
theorem LikePost_conflict_and_increment (posts : List Post)
    (records : List PostLike) (pid ip : List Char) :
    ((∃ r ∈ records, r.postId = pid ∧ r.ip = ip) →
        (posts.find? (fun q => q.id == pid)).isSome = true →
        LikePost posts records pid ip = (409, posts, records))
  ∧ (∀ p, posts.find? (fun q => q.id == pid) = some p →
        (¬ ∃ r ∈ records, r.postId = pid ∧ r.ip = ip) →
        (LikePost posts records pid ip).1 = 200
        ∧ (LikePost posts records pid ip).2.2 = records ++ [⟨pid, ip⟩]
        ∧ likesOf (LikePost posts records pid ip).2.1 pid = some (p.likes + 1)
        ∧ ∀ q : List Char, q ≠ pid →
            likesOf (LikePost posts records pid ip).2.1 q = likesOf posts q) := by
  constructor
  · rintro ⟨r, hr, hr1, hr2⟩ hsome
    obtain ⟨p0, hp0⟩ := Option.isSome_iff_exists.mp hsome
    have hany : records.any (fun r => r.postId == pid && r.ip == ip) = true :=
      List.any_eq_true.mpr ⟨r, hr, by simp [hr1, hr2]⟩
    simp only [LikePost, hp0, hany, if_true]
  · intro p hp hnex
    have hany : records.any (fun r => r.postId == pid && r.ip == ip) = false := by
      cases h : records.any (fun r => r.postId == pid && r.ip == ip)
      · rfl
      · exfalso
        rcases List.any_eq_true.mp h with ⟨r, hr, hb⟩
        simp only [Bool.and_eq_true, beq_iff_eq] at hb
        exact hnex ⟨r, hr, hb.1, hb.2⟩
    have hstep : LikePost posts records pid ip
        = (200,
           posts.map (fun q => if q.id == pid then { q with likes := q.likes + 1 } else q),
           records ++ [⟨pid, ip⟩]) := by
      simp only [LikePost, hp, hany]
      rfl
    rw [hstep]
    have hid : ∀ q : Post,
        ((fun q => if q.id == pid then { q with likes := q.likes + 1 } else q) q).id
          = q.id := by
      intro q
      by_cases h : (q.id == pid) = true
      · simp [h]
      · simp [h]
    refine ⟨rfl, rfl, ?_, ?_⟩
    · rw [likesOf, find?_map_id_pred _ hid posts pid, hp, Option.map_some']
      have hpid : (p.id == pid) = true := by
        have h2 := List.find?_some hp
        simpa using h2
      simp [hpid]
    · intro q hq
      rw [likesOf, likesOf, find?_map_id_pred _ hid posts q]
      cases hfind : posts.find? (fun x => x.id == q) with
      | none => rfl
      | some e =>
        have heq : e.id = q := by
          have h2 := List.find?_some hfind
          simpa using h2
        have hne : e.id ≠ pid := by
          rw [heq]
          exact hq
        simp [Option.map_some', hne]

/-- Witness for C3: liking a fresh post succeeds with 200 and counter 1;
liking it again from the same identity is a 409 with nothing changed. -/
theorem LikePost_conflict_and_increment_witness :
    (LikePost [⟨"p1".toList, "T".toList, "s".toList, 0, 0, true⟩] []
        ("p1".toList) ("1.2.3.4".toList)).1 = 200
  ∧ likesOf (LikePost [⟨"p1".toList, "T".toList, "s".toList, 0, 0, true⟩] []
        ("p1".toList) ("1.2.3.4".toList)).2.1 ("p1".toList) = some 1
  ∧ LikePost [⟨"p1".toList, "T".toList, "s".toList, 0, 0, true⟩]
        [⟨"p1".toList, "1.2.3.4".toList⟩] ("p1".toList) ("1.2.3.4".toList)
      = (409, [⟨"p1".toList, "T".toList, "s".toList, 0, 0, true⟩],
         [⟨"p1".toList, "1.2.3.4".toList⟩]) := by
  refine ⟨?_, ?_, ?_⟩
  · exact ((LikePost_conflict_and_increment _ _ _ _).2
      ⟨"p1".toList, "T".toList, "s".toList, 0, 0, true⟩ (by decide) (by decide)).1
  · have h := ((LikePost_conflict_and_increment
      [⟨"p1".toList, "T".toList, "s".toList, 0, 0, true⟩] []
      ("p1".toList) ("1.2.3.4".toList)).2
      ⟨"p1".toList, "T".toList, "s".toList, 0, 0, true⟩ (by decide) (by decide)).2.2.1
    simpa using h
  · exact (LikePost_conflict_and_increment _ _ _ _).1 (by decide) (by decide)

/-- Counterexample for C2: dislike is not idempotent in general — on a
post with 2 likes, a second dislike changes the store again (2 to 1 to
0), so repeating the operation differs from performing it once. -/
theorem DislikePost_not_idempotent_cex :
    ¬ (DislikePost
         (DislikePost [⟨"p1".toList, "T".toList, "s".toList, 2, 0, true⟩] []
            ("p1".toList) ("9.9.9.9".toList)).2.2.1
         (DislikePost [⟨"p1".toList, "T".toList, "s".toList, 2, 0, true⟩] []
            ("p1".toList) ("9.9.9.9".toList)).2.2.2
         ("p1".toList) ("9.9.9.9".toList)
       = DislikePost [⟨"p1".toList, "T".toList, "s".toList, 2, 0, true⟩] []
           ("p1".toList) ("9.9.9.9".toList)) := by
  decide

/-- C2 (amended): for an existing post, dislike succeeds with 200,
returns and stores the like counter decremented by 1 floored at 0 (never
negative), deletes the identity's like record when present, still
succeeds returning the unchanged 0 when the counter is already 0, and is
idempotent once the counter is 0: a further dislike returns 200 with 0
and leaves posts and records exactly as they were. -/
theorem DislikePost_floor_semantics (posts : List Post)
    (records : List PostLike) (pid ip : List Char) (p : Post)
    (hfind : posts.find? (fun q => q.id == pid) = some p) :
    (DislikePost posts records pid ip).1 = 200
  ∧ (DislikePost posts records pid ip).2.1 = max (p.likes - 1) 0
  ∧ 0 ≤ (DislikePost posts records pid ip).2.1
  ∧ (p.likes = 0 → (DislikePost posts records pid ip).2.1 = 0)
  ∧ (∀ r ∈ (DislikePost posts records pid ip).2.2.2, ¬(r.postId = pid ∧ r.ip = ip))
  ∧ likesOf (DislikePost posts records pid ip).2.2.1 pid = some (max (p.likes - 1) 0)
  ∧ (p.likes = 0 →
      DislikePost (DislikePost posts records pid ip).2.2.1
          (DislikePost posts records pid ip).2.2.2 pid ip
        = (200, 0, (DislikePost posts records pid ip).2.2.1,
           (DislikePost posts records pid ip).2.2.2)) := by
  have hstep : DislikePost posts records pid ip
      = (200, max (p.likes - 1) 0,
         posts.map (fun q => if q.id == pid then { q with likes := max (p.likes - 1) 0 } else q),
         records.filter (fun r => !(r.postId == pid && r.ip == ip))) := by
    simp only [DislikePost, hfind]
  have hid : ∀ v : Int, ∀ q : Post,
      ((fun q => if q.id == pid then { q with likes := v } else q) q).id = q.id := by
    intro v q
    by_cases h : (q.id == pid) = true
    · simp [h]
    · simp [h]
  have hpid : (p.id == pid) = true := by
    have h2 := List.find?_some hfind
    simpa using h2
  rw [hstep]
  refine ⟨rfl, rfl, le_max_right _ _, ?_, ?_, ?_, ?_⟩
  · intro h0
    rw [h0]
    show max ((0 : Int) - 1) 0 = 0
    decide
  · intro r hr
    have := List.of_mem_filter hr
    simp only [Bool.not_eq_true', Bool.and_eq_true, beq_iff_eq] at this
    intro hcontra
    rw [Bool.and_eq_false_iff] at this
    rcases this with h | h <;> simp [hcontra.1, hcontra.2] at h
  · rw [likesOf, find?_map_id_pred _ (hid _) posts pid, hfind, Option.map_some']
    simp [hpid]
  · intro h0
    have hmaxZ : max ((0 : Int) - 1) 0 = 0 := by decide
    rw [h0, hmaxZ]
    have hfind2 : (posts.map
        (fun q => if q.id == pid then { q with likes := (0 : Int) } else q)).find?
          (fun q => q.id == pid) = some { p with likes := (0 : Int) } := by
      rw [find?_map_id_pred _ (hid _) posts pid, hfind, Option.map_some']
      simp [hpid]
    have hmap : (posts.map
          (fun q => if q.id == pid then { q with likes := (0 : Int) } else q)).map
          (fun q => if q.id == pid then { q with likes := (0 : Int) } else q)
        = posts.map (fun q => if q.id == pid then { q with likes := (0 : Int) } else q) := by
      rw [List.map_map]
      refine List.map_congr_left ?_
      intro q _
      by_cases h : (q.id == pid) = true
      · simp [Function.comp, h]
      · simp [Function.comp, h]
    have hfil : (records.filter (fun r => !(r.postId == pid && r.ip == ip))).filter
          (fun r => !(r.postId == pid && r.ip == ip))
        = records.filter (fun r => !(r.postId == pid && r.ip == ip)) := by
      rw [List.filter_filter]
      refine List.filter_congr ?_
      intro r _
      cases h : (r.postId == pid && r.ip == ip)
      · simp [h]
      · simp [h]
    simp only [DislikePost, hfind2, hmaxZ, hmap, hfil]

/-- Witness for C2 (amended): disliking a post with 3 likes gives 200 and
counter 2; disliking a post at 0 likes (with a stale like record, which
gets deleted) gives 200 and stays at 0. -/
theorem DislikePost_floor_semantics_witness :
    (DislikePost [⟨"p1".toList, "T".toList, "s".toList, 3, 0, true⟩] []
        ("p1".toList) ("9.9.9.9".toList)).1 = 200
  ∧ (DislikePost [⟨"p1".toList, "T".toList, "s".toList, 3, 0, true⟩] []
        ("p1".toList) ("9.9.9.9".toList)).2.1 = 2
  ∧ (DislikePost [⟨"p1".toList, "T".toList, "s".toList, 0, 0, true⟩]
        [⟨"p1".toList, "9.9.9.9".toList⟩] ("p1".toList) ("9.9.9.9".toList)).2.1 = 0
  ∧ (∀ r ∈ (DislikePost [⟨"p1".toList, "T".toList, "s".toList, 0, 0, true⟩]
        [⟨"p1".toList, "9.9.9.9".toList⟩] ("p1".toList) ("9.9.9.9".toList)).2.2.2,
      ¬(r.postId = "p1".toList ∧ r.ip = "9.9.9.9".toList)) := by
  refine ⟨?_, ?_, ?_, ?_⟩
  · exact (DislikePost_floor_semantics _ _ _ ("9.9.9.9".toList)
      ⟨"p1".toList, "T".toList, "s".toList, 3, 0, true⟩ (by decide)).1
  · have h := (DislikePost_floor_semantics
      [⟨"p1".toList, "T".toList, "s".toList, 3, 0, true⟩] []
      ("p1".toList) ("9.9.9.9".toList)
      ⟨"p1".toList, "T".toList, "s".toList, 3, 0, true⟩ (by decide)).2.1
    simpa using h
  · exact (DislikePost_floor_semantics
      [⟨"p1".toList, "T".toList, "s".toList, 0, 0, true⟩]
      [⟨"p1".toList, "9.9.9.9".toList⟩]
      ("p1".toList) ("9.9.9.9".toList)
      ⟨"p1".toList, "T".toList, "s".toList, 0, 0, true⟩ (by decide)).2.2.2.1 rfl
  · exact (DislikePost_floor_semantics
      [⟨"p1".toList, "T".toList, "s".toList, 0, 0, true⟩]
      [⟨"p1".toList, "9.9.9.9".toList⟩]
      ("p1".toList) ("9.9.9.9".toList)
      ⟨"p1".toList, "T".toList, "s".toList, 0, 0, true⟩ (by decide)).2.2.2.2.1

/-- C9: `GetPost` resolves by ObjectID parsing first: a valid
24-hex-character identifier is looked up only by document id and never by
slug — so a post whose slug is itself valid ObjectID hex can never be
fetched via that slug — and only identifiers failing ObjectID parsing are
looked up as slugs. -/
theorem GetPost_objectid_precedence (store : List Post) (s : List Char) :
    ((s.length = 24 ∧ s.all isHexDigit = true) →
        GetPost store s = store.find? (fun p => p.id == s.map Char.toLower))
  ∧ (¬ (s.length = 24 ∧ s.all isHexDigit = true) →
        GetPost store s = store.find? (fun p => p.slug == s))
  ∧ ((s.length = 24 ∧ s.all isHexDigit = true) →
        (∀ p ∈ store, p.id ≠ s.map Char.toLower) →
        GetPost store s = none) := by
  have hvalid : ∀ _ : s.length = 24 ∧ s.all isHexDigit = true,
      ObjectIDFromHex s = some (s.map Char.toLower) := by
    intro h
    unfold ObjectIDFromHex
    rw [if_pos h]
  have hinvalid : ∀ _ : ¬ (s.length = 24 ∧ s.all isHexDigit = true),
      ObjectIDFromHex s = none := by
    intro h
    unfold ObjectIDFromHex
    rw [if_neg h]
  refine ⟨?_, ?_, ?_⟩
  · intro h
    simp only [GetPost, hvalid h]
  · intro h
    simp only [GetPost, hinvalid h]
  · intro h hnone
    simp only [GetPost, hvalid h]
    rw [List.find?_eq_none]
    intro x hx
    simp [hnone x hx]

/-- Witness for C9: a post whose slug is the valid ObjectID hex
`507f1f77bcf86cd799439011` but whose id is different cannot be fetched
with that identifier — the lookup goes by id and returns nothing. -/
theorem GetPost_objectid_precedence_witness :
    GetPost [⟨"aaaaaaaaaaaaaaaaaaaaaaaa".toList, "T".toList,
        "507f1f77bcf86cd799439011".toList, 0, 0, true⟩]
      ("507f1f77bcf86cd799439011".toList) = none :=
  (GetPost_objectid_precedence _ _).2.2 (by decide) (by decide)

/-- C10 (code bug evidence): every create request with an empty slug is
rejected by validation with 400 — the `required` binding on `Slug` fires
before the slug-generation branch, which is therefore unreachable — while
the generator itself computes exactly the transformation the claim
describes (lowercase, space to hyphen, the six punctuation characters
deleted, everything else, including `/` and `#`, passed through). -/
theorem CreatePost_empty_slug_behavior :
    (∀ title content summary : List Char, ∀ tags : List (List Char),
        CreatePost title content [] summary tags = Except.error 400)
  ∧ (∀ title : List Char, generateSlug title = slugSpecC10 title)
  ∧ generateSlug ("A/B #1.!".toList) = "a/b-#1".toList := by
  refine ⟨?_, ?_, ?_⟩
  · intro title content summary tags
    have hbind : bindPost title content [] summary tags = false := by
      simp [bindPost]
    simp [CreatePost, hbind]
  · intro title
    simp only [generateSlug, slugSpecC10, List.filter_filter]
    refine List.filter_congr ?_
    intro c _
    by_cases h1 : c = apostropheChar <;> by_cases h2 : c = '"'
      <;> by_cases h3 : c = '.' <;> by_cases h4 : c = ','
      <;> by_cases h5 : c = '!' <;> by_cases h6 : c = '?'
      <;> simp [h1, h2, h3, h4, h5, h6, Bool.and_assoc, Bool.and_comm,
            Bool.and_left_comm]
  · decide
